import Mathlib

/-!
Verification of the Cylindo CSV generator (src/streamlit_app.py).

The development shallowly embeds the algorithmic core of the script:
reference-data normalization (load_raw_data), the fuzzy name prefilter
(find_best_product_match_index), the color matcher (check_color_match),
the exclusivity grouping / material-filter / Cartesian-product main loop,
and the image-URL construction.  Pandas rows become a Lean structure,
Python lists become Lean lists, Python truthiness on optional strings is
modelled explicitly, and Python set iteration (whose order is
hash-dependent and hence not fixed by the source) is modelled by an
explicit iteration-order parameter passed to the grouping functions.
Strings are treated at the character level (ASCII suffices for all data
handled here).
-/

/-- An option of a product feature, as delivered by the configuration API
(only its `code` participates in the algorithmic core). -/
structure Opt where
  code : String
deriving Repr, DecidableEq

/-- A product feature: a code plus its ordered option list. -/
structure Feature where
  code : String
  options : List Opt
deriving Repr, DecidableEq

/-- A preprocessed row of the reference table, after `load_raw_data`:
`Item No`, `Item Name`, the derived `normalized_material_color` and the
derived `base_color_word_set` (a Python `set` of word tokens; modelled as
the token list, which is faithful for the emptiness and subset tests the
code performs on it). -/
structure RefRow where
  itemNo : String
  itemName : String
  normalized_material_color : String
  base_color_word_set : List String
deriving Repr, DecidableEq

/-- Python truthiness of an optional string: `None` and `""` are falsy. -/
def truthyStr : Option String → Bool
  | none => false
  | some s => !s.isEmpty

/-- Python `x or y` on optional strings: `x` if truthy, else `y`. -/
def pyOrStr (a b : Option String) : Option String :=
  if truthyStr a then a else b

/-- Embeds `str(x).replace(' ', '').lower()` (used in `load_raw_data` on
the `Color (lookup InRiver)` column and in `check_color_match` on the API
material color): drop every space character, lowercase the rest. -/
def normalizeMaterial (s : String) : String :=
  String.mk ((s.data.filter (fun c => c ≠ ' ')).map Char.toLower)

/-- A word character in the sense of the regex `\w` (ASCII fragment):
a letter, a digit, or an underscore. -/
def isWordChar (c : Char) : Bool :=
  c.isAlphanum || c == '_'

/-- Helper for `getWordSet`: scans the character list, accumulating the
current (reversed) token, and emits maximal runs of word characters. -/
def tokenizeAux : List Char → List Char → List String
  | [], cur => if cur.isEmpty then [] else [String.mk cur.reverse]
  | c :: rest, cur =>
    if isWordChar c then tokenizeAux rest (c :: cur)
    else if cur.isEmpty then tokenizeAux rest []
    else String.mk cur.reverse :: tokenizeAux rest []

/-- Embeds `set(re.findall(r'\w+', str(text).lower()))`: lowercase the
text, then collect the `\w+` tokens.  The Python value is a set; the
token list is kept, which determines the set. -/
def getWordSet (s : String) : List String :=
  tokenizeAux (s.data.map Char.toLower) []

/-- Builds a preprocessed reference row from the four raw columns read by
`load_raw_data`, applying its two derivations. -/
def loadRefRow (itemNo itemName baseColor colorLookup : String) : RefRow :=
  { itemNo := itemNo
    itemName := itemName
    normalized_material_color := normalizeMaterial colorLookup
    base_color_word_set := getWordSet baseColor }

/-- Boolean subset test on token lists, embedding `set.issubset`. -/
def subsetB (l1 l2 : List String) : Bool :=
  l1.all (fun t => l2.contains t)

/-- Embeds `check_color_match(api_base_color, api_material_color,
candidate_row)`: short-circuit to `False` when either color is falsy;
otherwise require the exact normalized material equality and the
non-empty word-subset condition on the base color. -/
def check_color_match (api_base api_mat : Option String) (row : RefRow) : Bool :=
  if !truthyStr api_base || !truthyStr api_mat then false
  else
    let matNorm := normalizeMaterial (api_mat.getD "")
    let baseWords := getWordSet (api_base.getD "")
    let materialMatch := row.normalized_material_color == matNorm
    let baseMatch := !row.base_color_word_set.isEmpty && subsetB row.base_color_word_set baseWords
    materialMatch && baseMatch

/-- Maximum of a list of scores, embedding `scores.max()` (scores are
non-negative, so folding from 0 is exact on non-empty lists). -/
def listMax (l : List Nat) : Nat := l.foldl max 0

/-- Embeds `find_best_product_match_index(api_product_name, raw_data_df,
threshold=85)`: score every row's `Item Name` with the (abstracted) fuzzy
scorer, return `none` when the table is empty or the best score is below
the threshold, else the index of the first maximal score
(`Series.idxmax` returns the first occurrence of the maximum). -/
def find_best_product_match_index (score : String → String → Nat)
    (apiProductName : String) (df : List RefRow) (threshold : Nat) : Option Nat :=
  let scores := df.map (fun r => score apiProductName r.itemName)
  if scores.isEmpty || listMax scores < threshold then none
  else some (scores.findIdx (fun x => x == listMax scores))

/-- Embeds the `Item No` assignment of the main loop: the row's field
defaults to `""`; when a candidate row was found and
`check_color_match` succeeds on it, the candidate's `Item No` is used. -/
def assignItemNo (cand : Option RefRow) (base mat : Option String) : String :=
  match cand with
  | none => ""
  | some r => if check_color_match base mat r then r.itemNo else ""

/-- The whole per-combination matcher of the code: candidate selection by
`find_best_product_match_index`, then the color check on that single
candidate row. -/
def codeMatcherItemNo (score : String → String → Nat) (apiProductName : String)
    (df : List RefRow) (threshold : Nat) (base mat : Option String) : String :=
  match find_best_product_match_index score apiProductName df threshold with
  | none => ""
  | some i => assignItemNo (df.get? i) base mat

/-- Modelled from the spec (Strategy B as claimed): retain every row whose
name score reaches the threshold, then return the item identifier of the
first surviving row passing the color conditions, or empty. -/
def specStrategyB (score : String → String → Nat) (apiProductName : String)
    (df : List RefRow) (threshold : Nat) (base mat : Option String) : String :=
  let surviving := df.filter (fun r => threshold ≤ score apiProductName r.itemName)
  if surviving.isEmpty then ""
  else
    match surviving.find? (fun r => check_color_match base mat r) with
    | some r => r.itemNo
    | none => ""

/-- The amended matcher description: the single first row attaining the
maximal name score is the only candidate; it must reach the threshold and
pass the color conditions, else the result is empty. -/
def specAmendedMatch (score : String → String → Nat) (apiProductName : String)
    (df : List RefRow) (threshold : Nat) (base mat : Option String) : String :=
  let scores := df.map (fun r => score apiProductName r.itemName)
  if scores.isEmpty || listMax scores < threshold then ""
  else
    match df.find? (fun r => score apiProductName r.itemName == listMax scores) with
    | some r => if check_color_match base mat r then r.itemNo else ""
    | none => ""

/-- One enumeration axis of the main loop: a list of (feature code,
option) pairs, as built into `all_combinable_entities`. -/
abbrev Entity := List (String × Opt)

/-- Embeds the dict comprehension `{f["code"]: f for f in features_list
if f.get("options")}` restricted to its value set: the features that have
a non-empty option list. -/
def presentFeatures (features : List Feature) : List Feature :=
  features.filter (fun f => !f.options.isEmpty)

/-- The membership of `product_feature_codes` (a Python set): the present
feature codes, without duplicates. -/
def productCodes (features : List Feature) : List String :=
  ((presentFeatures features).map (fun f => f.code)).dedup

/-- Embeds `features_by_code[c]["options"]`: dict construction lets a
later feature with the same code overwrite an earlier one, hence the
last matching present feature supplies the options. -/
def lookupOptions (features : List Feature) (c : String) : List Opt :=
  match (presentFeatures features).reverse.find? (fun f => f.code == c) with
  | some f => f.options
  | none => []

/-- Embeds the per-option material filter of the exclusive-group branch:
`if not selected_material_codes or opt['code'] in selected_material_codes`. -/
def filterAllow (allowList : List String) (opts : List Opt) : List Opt :=
  opts.filter (fun o => allowList.isEmpty || allowList.contains o.code)

/-- One pass of `for exclusive_set in MANUAL_EXCLUSIVE_SETS`: when the
intersection with the product's present codes has at least two members,
collect the (filtered) options of every intersecting feature — iterated
in the order `setIter` gives to the Python set — append the group when it
is non-empty, and mark the codes processed. -/
def exclusiveStep (setIter : List String → List String) (allowList : List String)
    (features : List Feature) (acc : List Entity × List String)
    (exSet : List String) : List Entity × List String :=
  let inter := (productCodes features).filter (fun c => exSet.contains c)
  if inter.length > 1 then
    let interIter := setIter inter
    let groupOpts := (interIter.map (fun c =>
      (filterAllow allowList (lookupOptions features c)).map (fun o => (c, o)))).flatten
    let processed := acc.2 ++ interIter
    if groupOpts.isEmpty then (acc.1, processed) else (acc.1 ++ [groupOpts], processed)
  else acc

/-- The exclusive-sets loop of the main loop: folds `exclusiveStep` over
the declared exclusive sets, yielding the grouped entities and the
processed codes. -/
def exclusivePart (setIter : List String → List String) (exSets : List (List String))
    (allowList : List String) (features : List Feature) : List Entity × List String :=
  exSets.foldl (exclusiveStep setIter allowList features) ([], [])

/-- Embeds the standalone loop: every present code not processed becomes
its own entity with all its options (never filtered by the allow-list),
appended when non-empty, in the set-iteration order of
`standalone_codes`. -/
def standalonePart (setIter : List String → List String) (exSets : List (List String))
    (allowList : List String) (features : List Feature) : List Entity :=
  let processed := (exclusivePart setIter exSets allowList features).2
  (setIter ((productCodes features).filter (fun c => !processed.contains c))).filterMap
    (fun c =>
      let opts := (lookupOptions features c).map (fun o => (c, o))
      if opts.isEmpty then none else some opts)

/-- `all_combinable_entities`: grouped entities first, then standalone
entities. -/
def groupEntities (setIter : List String → List String) (exSets : List (List String))
    (allowList : List String) (features : List Feature) : List Entity :=
  (exclusivePart setIter exSets allowList features).1
    ++ standalonePart setIter exSets allowList features

/-- Embeds `itertools.product(*entities)`: the Cartesian product, first
entity varying slowest, yielding one flattened combination per tuple.
On the empty list it yields the single empty combination, exactly as
`itertools.product()` does. -/
def listProd {α : Type} : List (List α) → List (List α)
  | [] => [[]]
  | xs :: rest => (xs.map (fun x => (listProd rest).map (fun t => x :: t))).flatten

/-- The enumeration actually run per frame: the main loop guards with
`if not all_combinable_entities: ... continue`, so an empty entity list
contributes no combinations at all. -/
def enumerateEntities (entities : List Entity) : List Entity :=
  if entities.isEmpty then [] else listProd entities

/-- Grouping plus enumeration for one product and one frame. -/
def generateCombos (setIter : List String → List String) (exSets : List (List String))
    (allowList : List String) (features : List Feature) : List Entity :=
  enumerateEntities (groupEntities setIter exSets allowList features)

/-- Embeds `row.get(k)` on the per-combination dict `row[f_code] =
opt["code"]`: dict insertion lets a later pair overwrite an earlier one,
so the last pair with the key wins. -/
def comboGet (combo : Entity) (k : String) : Option String :=
  (combo.reverse.find? (fun p => p.1 == k)).map (fun p => p.2.code)

/-- The `Item No` computed for one generated combination: `BASE` supplies
the base color, `TEXTILE or LEATHER` the material color, and
`assignItemNo` applies the candidate check. -/
def rowItemNo (cand : Option RefRow) (combo : Entity) : String :=
  assignItemNo cand (comboGet combo "BASE")
    (pyOrStr (comboGet combo "TEXTILE") (comboGet combo "LEATHER"))

/-- Uppercase hexadecimal digit for a value below 16. -/
def hexDigit (n : Nat) : Char :=
  if n < 10 then Char.ofNat (48 + n) else Char.ofNat (55 + n)

/-- Characters `urllib.parse.quote` never escapes: ASCII letters, digits,
and `_.-~`. -/
def alwaysSafe (c : Char) : Bool :=
  (c ≥ 'a' && c ≤ 'z') || (c ≥ 'A' && c ≤ 'Z') || (c ≥ '0' && c ≤ '9')
    || c == '_' || c == '.' || c == '-' || c == '~'

/-- Embeds `urllib.parse.quote(s, safe=...)` on ASCII strings: keep safe
characters, percent-encode the rest with uppercase hex. -/
def pyQuote (safe : List Char) (s : String) : String :=
  String.mk ((s.data.map (fun c =>
    if alwaysSafe c || safe.contains c then [c]
    else ['%', hexDigit (c.toNat / 16), hexDigit (c.toNat % 16)])).flatten)

/-- Embeds the ampersand-joining of query-string parts in the URL
construction. -/
def joinAmp : List String → String
  | [] => ""
  | [x] => x
  | x :: y :: rest => x ++ "&" ++ joinAmp (y :: rest)

/-- The URL built by the main loop for one product, frame and
combination: the base URL (with the product code percent-encoded, `/`
safe), the frame, the product code again, the ordered query dict, then
one `feature=` parameter per chosen option with `:` kept safe. -/
def buildImageUrl (cid prod : String) (frame size : Nat) (skipSharpening : Bool)
    (combo : Entity) : String :=
  let baseUrl := "https://content.cylindo.com/api/v2/" ++ cid ++ "/products/"
    ++ pyQuote ['/'] prod ++ "/frames"
  let queryParams := [("size", toString size), ("encoding", "png"),
      ("removeEnvironmentShadow", "true")]
    ++ (if skipSharpening then [("skipSharpening", "true")] else [])
  let featureParams := combo.map (fun p =>
    "feature=" ++ pyQuote [':'] (p.1 ++ ":" ++ p.2.code))
  let queryString := joinAmp (queryParams.map (fun kv => kv.1 ++ "=" ++ kv.2))
  baseUrl ++ "/" ++ toString frame ++ "/" ++ pyQuote ['/'] prod ++ ".PNG?"
    ++ queryString ++ "&" ++ joinAmp featureParams

/-- Concatenation of a list of string pieces, in order. -/
def concatAll : List String → String
  | [] => ""
  | x :: rest => x ++ concatAll rest

/-- The URL shape the specification claims, built by concatenation: the
fixed query triple, the optional sharpening flag, then one
`&feature=code:code` piece per chosen option. -/
def specImageUrl (base prod : String) (frame size : Nat) (skipSharpening : Bool)
    (combo : Entity) : String :=
  base ++ "/products/" ++ pyQuote ['/'] prod ++ "/frames/" ++ toString frame
    ++ "/" ++ pyQuote ['/'] prod ++ ".PNG?size=" ++ toString size
    ++ "&encoding=png&removeEnvironmentShadow=true"
    ++ (if skipSharpening then "&skipSharpening=true" else "")
    ++ concatAll (combo.map (fun p =>
        "&feature=" ++ pyQuote [':'] (p.1 ++ ":" ++ p.2.code)))

/-- The candidate reference row fixed once per product in the main loop:
`raw_data_df.iloc[best_match_index]` when the fuzzy prefilter found an
index, else no candidate. -/
def productCandidate (score : String → String → Nat) (apiProductName : String)
    (df : List RefRow) (threshold : Nat) : Option RefRow :=
  match find_best_product_match_index score apiProductName df threshold with
  | none => none
  | some i => df.get? i

/-- A concrete fuzzy scorer used for counterexamples and witnesses: the
item name alone determines the score. -/
def scoreDemo : String → String → Nat :=
  fun _ n => if n = "N0" then 90 else if n = "N1" then 95 else 0

/-- A concrete reference row whose colors match base `oak` and material
`m1`. -/
def rowOak : RefRow :=
  { itemNo := "A", itemName := "N0", normalized_material_color := "m1",
    base_color_word_set := ["oak"] }

/-- A concrete reference row whose material `zz` matches nothing used in
the scenarios. -/
def rowZZ : RefRow :=
  { itemNo := "B", itemName := "N1", normalized_material_color := "zz",
    base_color_word_set := ["oak"] }

/-- A two-feature product (codes `X`, `Y`, one option each), disjoint
from the declared exclusive set. -/
def fsXY : List Feature := [⟨"X", [⟨"x1"⟩]⟩, ⟨"Y", [⟨"y1"⟩]⟩]

/-- A product carrying `TEXTILE`, `LEATHER` and `BASE` with one option
each. -/
def fsTLB : List Feature :=
  [⟨"TEXTILE", [⟨"t1"⟩]⟩, ⟨"LEATHER", [⟨"l1"⟩]⟩, ⟨"BASE", [⟨"b1"⟩]⟩]

/-- The manually declared exclusive sets of the script, as lists. -/
def manualExclusiveSets : List (List String) := [["TEXTILE", "LEATHER"]]

/-- A combination choosing `BASE` option `oak` and `TEXTILE` option
`m1`. -/
def comboBT : Entity := [("BASE", ⟨"oak"⟩), ("TEXTILE", ⟨"m1"⟩)]

/-- A combination choosing `BASE` option `oak` and `LEATHER` option
`m1`. -/
def comboBL : Entity := [("BASE", ⟨"oak"⟩), ("LEATHER", ⟨"m1"⟩)]

/-- Positional lookup after `findIdx` on mapped scores agrees with
`find?` on the rows themselves: the code's idxmax-then-iloc step equals
taking the first row whose score is the given value. -/
theorem find_get_eq (df : List RefRow) (f : RefRow → Nat) (m : Nat) :
    df.get? ((df.map f).findIdx (fun x => x == m)) = df.find? (fun r => f r == m) := by
  induction df with
  | nil => rfl
  | cons a t ih =>
    by_cases h : f a == m
    · simp [List.findIdx_cons, List.find?_cons, h]
    · simp only [List.map_cons, List.findIdx_cons, List.find?_cons, h, cond_false]
      simpa using ih

/-- The Cartesian product has multiplicative size. -/
theorem listProd_length {α : Type} (ls : List (List α)) :
    (listProd ls).length = (ls.map List.length).prod := by
  induction ls with
  | nil => rfl
  | cons xs rest ih =>
    simp only [listProd, List.length_flatten, List.map_map, List.map_cons, List.prod_cons]
    rw [show (List.length ∘ fun x => (listProd rest).map (fun t => x :: t)) =
        (fun _ : α => (listProd rest).length) from funext (fun x => by simp)]
    rw [List.map_const', List.sum_replicate, smul_eq_mul, ih]

/-- A non-nil list is non-empty in the Boolean sense. -/
theorem isEmpty_false_of_ne_nil {α : Type} {l : List α} (h : l ≠ []) : l.isEmpty = false := by
  cases l with
  | nil => exact absurd rfl h
  | cons x t => rfl

/-- With an empty allow-list the material filter keeps everything. -/
theorem filterAllow_nil (opts : List Opt) : filterAllow [] opts = opts := by
  simp [filterAllow]

/-- One exclusive-set step never adds an empty entity. -/
theorem exclusiveStep_preserves (s : List String → List String) (al : List String)
    (fs : List Feature) (acc : List Entity × List String) (e : List String)
    (h : ∀ x ∈ acc.1, x ≠ []) : ∀ x ∈ (exclusiveStep s al fs acc e).1, x ≠ [] := by
  unfold exclusiveStep
  dsimp only
  split
  · split
    · exact h
    next h2 =>
      intro x hx
      rcases List.mem_append.mp hx with hx | hx
      · exact h x hx
      · rcases List.mem_singleton.mp hx with rfl
        intro hnil
        exact h2 (by rw [hnil]; rfl)
  · exact h

/-- Every grouped entity produced by the exclusive-sets loop is
non-empty. -/
theorem exclusivePart_entities_ne_nil (s : List String → List String)
    (es : List (List String)) (al : List String) (fs : List Feature) :
    ∀ x ∈ (exclusivePart s es al fs).1, x ≠ [] := by
  unfold exclusivePart
  have main : ∀ (es' : List (List String)) (acc : List Entity × List String),
      (∀ x ∈ acc.1, x ≠ []) →
      ∀ x ∈ (es'.foldl (exclusiveStep s al fs) acc).1, x ≠ [] := by
    intro es'
    induction es' with
    | nil => intro acc h; simpa using h
    | cons e t ih =>
      intro acc h
      exact ih _ (exclusiveStep_preserves s al fs acc e h)
  exact main es ([], []) (by simp)

/-- Every standalone entity is non-empty. -/
theorem standalone_entities_ne_nil (s : List String → List String)
    (es : List (List String)) (al : List String) (fs : List Feature) :
    ∀ x ∈ standalonePart s es al fs, x ≠ [] := by
  intro x hx
  unfold standalonePart at hx
  rcases List.mem_filterMap.mp hx with ⟨c, hc, hsome⟩
  dsimp only at hsome
  split at hsome
  · exact absurd hsome (by simp)
  next hemp =>
    injection hsome with hh
    intro hnil
    exact hemp (by rw [hh, hnil]; rfl)

/-- Every combinable entity assembled by the main loop is non-empty. -/
theorem groupEntities_ne_nil (s : List String → List String)
    (es : List (List String)) (al : List String) (fs : List Feature) :
    ∀ x ∈ groupEntities s es al fs, x ≠ [] := by
  unfold groupEntities
  intro x hx
  rcases List.mem_append.mp hx with hx | hx
  · exact exclusivePart_entities_ne_nil s es al fs x hx
  · exact standalone_entities_ne_nil s es al fs x hx

/-- The processed-codes component of one exclusive-set step does not
depend on the material allow-list. -/
theorem exclusiveStep_snd_indep (s : List String → List String) (al al' : List String)
    (fs : List Feature) (acc acc' : List Entity × List String) (e : List String)
    (h : acc.2 = acc'.2) :
    (exclusiveStep s al fs acc e).2 = (exclusiveStep s al' fs acc' e).2 := by
  unfold exclusiveStep
  dsimp only
  split
  · rw [h]
    split <;> split <;> rfl
  · exact h

/-- The processed-codes set after the whole exclusive-sets loop does not
depend on the material allow-list. -/
theorem exclusivePart_snd_indep (s : List String → List String)
    (es : List (List String)) (al al' : List String) (fs : List Feature) :
    (exclusivePart s es al fs).2 = (exclusivePart s es al' fs).2 := by
  unfold exclusivePart
  have main : ∀ (es' : List (List String)) (acc acc' : List Entity × List String),
      acc.2 = acc'.2 →
      (es'.foldl (exclusiveStep s al fs) acc).2 = (es'.foldl (exclusiveStep s al' fs) acc').2 := by
    intro es'
    induction es' with
    | nil => intro acc acc' h; simpa using h
    | cons e t ih =>
      intro acc acc' h
      exact ih _ _ (exclusiveStep_snd_indep s al al' fs acc acc' e h)
  exact main es ([], []) ([], []) rfl

/-- Standalone entities are never touched by the material allow-list. -/
theorem standalonePart_allowList_indep (s : List String → List String)
    (es : List (List String)) (al : List String) (fs : List Feature) :
    standalonePart s es al fs = standalonePart s es [] fs := by
  unfold standalonePart
  rw [exclusivePart_snd_indep s es al [] fs]

/-- Membership in the non-empty-allow-list filter. -/
theorem filterAllow_mem (al : List String) (opts : List Opt) (o : Opt) (h : al ≠ []) :
    (o ∈ filterAllow al opts ↔ o ∈ opts ∧ o.code ∈ al) := by
  unfold filterAllow
  rw [List.mem_filter]
  simp [isEmpty_false_of_ne_nil h]

/-- The material filter is idempotent. -/
theorem filterAllow_idem (al : List String) (opts : List Opt) :
    filterAllow al (filterAllow al opts) = filterAllow al opts := by
  unfold filterAllow
  rw [List.filter_filter]
  simp

/-- A list permuting a two-element list of distinct elements is one of
its two arrangements. -/
theorem perm_pair_cases {α : Type} [DecidableEq α] {a b : α} (hab : a ≠ b) {l : List α}
    (h : l.Perm [a, b]) : l = [a, b] ∨ l = [b, a] := by
  have hlen : l.length = 2 := by simpa using h.length_eq
  match l, hlen with
  | [x, y], _ =>
    have hx : x ∈ [a, b] := h.mem_iff.mp (by simp)
    have hy : y ∈ [a, b] := h.mem_iff.mp (by simp)
    have hamem : a ∈ [x, y] := h.mem_iff.mpr (by simp)
    have hbmem : b ∈ [x, y] := h.mem_iff.mpr (by simp)
    simp only [List.mem_cons, List.mem_singleton, List.not_mem_nil, or_false] at hx hy hamem hbmem
    rcases hx with rfl | rfl
    · rcases hy with rfl | rfl
      · rcases hbmem with h1 | h1 <;> exact absurd h1.symm hab
      · left; rfl
    · rcases hy with rfl | rfl
      · right; rfl
      · rcases hamem with h1 | h1 <;> exact absurd h1 hab

/-- Prepending the separator to an ampersand-joined non-empty list gives
the concatenation of separator-prefixed pieces. -/
theorem amp_join (l : List String) (h : l ≠ []) :
    "&" ++ joinAmp l = concatAll (l.map (fun x => "&" ++ x)) := by
  induction l with
  | nil => exact absurd rfl h
  | cons x t ih =>
    cases t with
    | nil => simp [joinAmp, concatAll, String.append_empty]
    | cons y r =>
      have ih2 := ih (by simp)
      simp only [joinAmp, concatAll, List.map_cons] at *
      rw [String.append_assoc, String.append_assoc, ih2]

/-- A non-empty `Item No` assignment from a present candidate is the
candidate's item number. -/
theorem assign_ne (r : RefRow) (b m : Option String) (h : assignItemNo (some r) b m ≠ "") :
    assignItemNo (some r) b m = r.itemNo := by
  by_cases k : check_color_match b m r = true
  · show (if check_color_match b m r = true then r.itemNo else "") = r.itemNo
    rw [if_pos k]
  · exfalso
    apply h
    show (if check_color_match b m r = true then r.itemNo else "") = ""
    rw [if_neg k]

/-- For a product with present features `A`, `B`, `C`, exclusive set
`{A, B}` and no allow-list, grouping yields exactly the merged `{A, B}`
entity of size `|A| + |B|` followed by the standalone `C` entity,
whatever order the set iteration uses. -/
theorem groupEntities_merge_pair (s : List String → List String) (a b c : List Opt)
    (hperm : ∀ l, (s l).Perm l) (ha : a ≠ []) (hb : b ≠ []) (hc : c ≠ []) :
    ∃ g, groupEntities s [["A", "B"]] [] [⟨"A", a⟩, ⟨"B", b⟩, ⟨"C", c⟩] =
        [g, c.map (fun o => ("C", o))] ∧ g.length = a.length + b.length := by
  set fs : List Feature := [⟨"A", a⟩, ⟨"B", b⟩, ⟨"C", c⟩] with hfs
  have hp : presentFeatures fs = fs := by
    simp [hfs, presentFeatures, isEmpty_false_of_ne_nil ha, isEmpty_false_of_ne_nil hb,
      isEmpty_false_of_ne_nil hc]
  have hcodes : productCodes fs = ["A", "B", "C"] := by simp [productCodes, hp, hfs]
  have hlookA : lookupOptions fs "A" = a := by simp [lookupOptions, hp, hfs, List.find?]
  have hlookB : lookupOptions fs "B" = b := by simp [lookupOptions, hp, hfs, List.find?]
  have hlookC : lookupOptions fs "C" = c := by simp [lookupOptions, hp, hfs, List.find?]
  have hinter : (productCodes fs).filter (fun x => (["A", "B"]).contains x) = ["A", "B"] := by
    rw [hcodes]; decide
  have hABperm := hperm ["A", "B"]
  have hCs : s ["C"] = ["C"] := List.perm_singleton.mp (hperm ["C"])
  rcases perm_pair_cases (by decide : ("A" : String) ≠ "B") hABperm with hcase | hcase
  · refine ⟨a.map (fun o => ("A", o)) ++ b.map (fun o => ("B", o)), ?_, by simp⟩
    have hstep : exclusivePart s [["A", "B"]] [] fs =
        ([a.map (fun o => ("A", o)) ++ b.map (fun o => ("B", o))], ["A", "B"]) := by
      unfold exclusivePart exclusiveStep
      dsimp only [List.foldl]
      rw [hinter, hcase]
      simp only [List.length_cons, List.length_nil, List.map_cons, List.map_nil,
        filterAllow_nil, hlookA, hlookB, List.flatten]
      have hg : (a.map (fun o => (("A" : String), o))
          ++ (b.map (fun o => (("B" : String), o)) ++ [])).isEmpty = false := by
        cases a with
        | nil => exact absurd rfl ha
        | cons x t => rfl
      rw [hg]
      simp
    have hstand : standalonePart s [["A", "B"]] [] fs = [c.map (fun o => ("C", o))] := by
      unfold standalonePart
      rw [hstep]
      dsimp only
      rw [hcodes]
      have hfilter : (["A", "B", "C"]).filter (fun x => !(["A", "B"]).contains x) = ["C"] := by
        decide
      rw [hfilter, hCs]
      simp only [List.filterMap_cons, List.filterMap_nil]
      rw [hlookC]
      have hcne : ((c.map (fun o => (("C" : String), o))).isEmpty) = false := by
        cases c with
        | nil => exact absurd rfl hc
        | cons x t => rfl
      rw [hcne]
      rfl
    unfold groupEntities
    rw [hstep, hstand]
    simp
  · refine ⟨b.map (fun o => ("B", o)) ++ a.map (fun o => ("A", o)), ?_, by simp [Nat.add_comm]⟩
    have hstep : exclusivePart s [["A", "B"]] [] fs =
        ([b.map (fun o => ("B", o)) ++ a.map (fun o => ("A", o))], ["B", "A"]) := by
      unfold exclusivePart exclusiveStep
      dsimp only [List.foldl]
      rw [hinter, hcase]
      simp only [List.length_cons, List.length_nil, List.map_cons, List.map_nil,
        filterAllow_nil, hlookA, hlookB, List.flatten]
      have hg : (b.map (fun o => (("B" : String), o))
          ++ (a.map (fun o => (("A" : String), o)) ++ [])).isEmpty = false := by
        cases b with
        | nil => exact absurd rfl hb
        | cons x t => rfl
      rw [hg]
      simp
    have hstand : standalonePart s [["A", "B"]] [] fs = [c.map (fun o => ("C", o))] := by
      unfold standalonePart
      rw [hstep]
      dsimp only
      rw [hcodes]
      have hfilter : (["A", "B", "C"]).filter (fun x => !(["B", "A"]).contains x) = ["C"] := by
        decide
      rw [hfilter, hCs]
      simp only [List.filterMap_cons, List.filterMap_nil]
      rw [hlookC]
      have hcne : ((c.map (fun o => (("C" : String), o))).isEmpty) = false := by
        cases c with
        | nil => exact absurd rfl hc
        | cons x t => rfl
      rw [hcne]
      rfl
    unfold groupEntities
    rw [hstep, hstand]
    simp

/-- When every declared exclusive set intersects the product's present
codes in fewer than two members, grouping behaves as if no exclusive set
were declared: every present feature is standalone. -/
theorem groupEntities_small_inter (s : List String → List String) (es : List (List String))
    (al : List String) (fs : List Feature)
    (hsmall : ∀ e ∈ es, ((productCodes fs).filter (fun x => e.contains x)).length < 2) :
    groupEntities s es al fs = groupEntities s [] al fs := by
  have hfold : ∀ (es' : List (List String)) (acc : List Entity × List String),
      (∀ e ∈ es', ((productCodes fs).filter (fun x => e.contains x)).length < 2) →
      es'.foldl (exclusiveStep s al fs) acc = acc := by
    intro es'
    induction es' with
    | nil => intro acc _; rfl
    | cons e t ih =>
      intro acc hsm
      have hstep : exclusiveStep s al fs acc e = acc := by
        unfold exclusiveStep
        dsimp only
        have hle : ¬ ((productCodes fs).filter (fun x => e.contains x)).length > 1 := by
          have := hsm e (by simp)
          omega
        rw [if_neg hle]
      rw [List.foldl_cons, hstep]
      exact ih acc (fun e' he' => hsm e' (by simp [he']))
  have hex : exclusivePart s es al fs = ([], []) := by
    unfold exclusivePart
    exact hfold es ([], []) hsmall
  have hex0 : exclusivePart s ([] : List (List String)) al fs = ([], []) := rfl
  unfold groupEntities standalonePart
  rw [hex, hex0]

/-- C1 (counterexample): with two reference rows both scoring at or above
the threshold 85, the first row passes the color conditions while the
higher-scoring second row does not; the claimed Strategy B scan over all
surviving rows would return the first row's item identifier `A`, but the
code's matcher consults only the single highest-scoring row and returns
empty, so the claim fails on this input. -/
theorem c1_prefilter_counterexample :
    codeMatcherItemNo scoreDemo "P" [rowOak, rowZZ] 85 (some "oak") (some "m1") = "" ∧
    specStrategyB scoreDemo "P" [rowOak, rowZZ] 85 (some "oak") (some "m1") = "A" ∧
    codeMatcherItemNo scoreDemo "P" [rowOak, rowZZ] 85 (some "oak") (some "m1") ≠
      specStrategyB scoreDemo "P" [rowOak, rowZZ] 85 (some "oak") (some "m1") :=
  ⟨rfl, rfl, by decide⟩

/-- C1 (amended): the matcher computes a score for every reference row,
keeps only the single first row attaining the maximal score, and returns
its item identifier exactly when that maximal score reaches the threshold
and the row passes the base-color word-subset and exact
normalized-material conditions; otherwise it returns empty, with no
fallback. -/
theorem c1_matcher_amended (score : String → String → Nat) (p : String) (df : List RefRow)
    (θ : Nat) (base mat : Option String) :
    codeMatcherItemNo score p df θ base mat = specAmendedMatch score p df θ base mat := by
  unfold codeMatcherItemNo find_best_product_match_index specAmendedMatch
  by_cases h : ((df.map fun r => score p r.itemName).isEmpty
      || decide (listMax (df.map fun r => score p r.itemName) < θ)) = true
  · simp [h]
  · simp only [h, Bool.false_eq_true, if_false]
    rw [find_get_eq df (fun r => score p r.itemName)
      (listMax (df.map fun r => score p r.itemName))]
    cases hf : df.find?
        (fun r => (score p r.itemName == listMax (df.map fun r => score p r.itemName))) with
    | none => simp [assignItemNo]
    | some r => simp [assignItemNo]

/-- C2 (counterexample): the stored normalized material code
`darkgrey01` does not equal the code's normalization of the API
material-color `Dark-Grey 01`, because the code strips only spaces and
keeps the hyphen; consequently the matcher rejects the pair the claim
says it accepts. -/
theorem c2_normalization_counterexample :
    (loadRefRow "A" "N0" "Oak" "Dark Grey 01").normalized_material_color = "darkgrey01" ∧
    normalizeMaterial "Dark-Grey 01" ≠ "darkgrey01" ∧
    check_color_match (some "oak") (some "Dark-Grey 01")
      (loadRefRow "A" "N0" "Oak" "Dark Grey 01") = false :=
  ⟨rfl, by decide, rfl⟩

/-- C2 (amended): normalization removes space characters only (hyphens
and other punctuation are kept) and case-folds, on both the reference
column and the API material-color string; hence normalizedMaterialCode
`darkgrey01` equals the normalization of `Dark Grey 01` (and the matcher
accepts that pair) but not of `Dark-Grey 01` nor of `Dark Grey 02`. -/
theorem c2_normalization_amended :
    (∀ iN iNm bC cL : String,
      (loadRefRow iN iNm bC cL).normalized_material_color = normalizeMaterial cL ∧
      (loadRefRow iN iNm bC cL).base_color_word_set = getWordSet bC) ∧
    normalizeMaterial "Dark Grey 01" = "darkgrey01" ∧
    normalizeMaterial "Dark-Grey 01" = "dark-grey01" ∧
    normalizeMaterial "Dark Grey 02" ≠ "darkgrey01" ∧
    check_color_match (some "oak") (some "Dark Grey 01")
      (loadRefRow "A" "N0" "Oak" "Dark Grey 01") = true ∧
    check_color_match (some "oak") (some "Dark Grey 02")
      (loadRefRow "A" "N0" "Oak" "Dark Grey 01") = false :=
  ⟨fun iN iNm bC cL => ⟨rfl, rfl⟩, rfl, rfl, by decide, rfl, rfl⟩

/-- C3 (counterexample): the combination order depends on the iteration
order of Python sets, which string hash randomization changes across
interpreter runs; with the identity iteration order the standalone
entities come out as `X` then `Y`, with the reversed order as `Y` then
`X`, so two runs of grouping plus enumeration on the same fixed input can
produce differently ordered combinations. -/
theorem c3_determinism_counterexample :
    generateCombos id manualExclusiveSets [] fsXY =
      [[("X", Opt.mk "x1"), ("Y", Opt.mk "y1")]] ∧
    generateCombos List.reverse manualExclusiveSets [] fsXY =
      [[("Y", Opt.mk "y1"), ("X", Opt.mk "x1")]] ∧
    generateCombos id manualExclusiveSets [] fsXY ≠
      generateCombos List.reverse manualExclusiveSets [] fsXY :=
  ⟨rfl, rfl, by decide⟩

/-- C3 (amended): grouping plus enumeration is deterministic relative to
the set-iteration order: two runs on the same input that enumerate Python
sets in the same order produce the same list of combinations in the same
order, the order following entity list order and within-entity option
order. -/
theorem c3_determinism_amended (s1 s2 : List String → List String)
    (es : List (List String)) (al : List String) (fs : List Feature)
    (h : ∀ l, s1 l = s2 l) :
    generateCombos s1 es al fs = generateCombos s2 es al fs := by
  have hs : s1 = s2 := funext h
  rw [hs]

/-- C3 (witness): the amended determinism theorem applied to two
syntactically distinct but pointwise equal iteration orders on a concrete
product. -/
theorem c3_determinism_amended_witness :
    generateCombos id manualExclusiveSets [] fsXY =
      generateCombos (fun l => l) manualExclusiveSets [] fsXY :=
  c3_determinism_amended id (fun l => l) manualExclusiveSets [] fsXY (fun l => rfl)

/-- C4 (counterexample): with allow-list `zzz` excluding every
`TEXTILE`/`LEATHER` option of a product that also carries `BASE`, the
grouped exclusive entity is filtered to empty, yet the product/angle pair
is not skipped: enumeration proceeds over the remaining standalone
entity and contributes a row, contradicting the claimed entire skip. -/
theorem c4_empty_filter_counterexample :
    (exclusivePart id manualExclusiveSets ["zzz"] fsTLB).1 = [] ∧
    generateCombos id manualExclusiveSets ["zzz"] fsTLB = [[("BASE", Opt.mk "b1")]] ∧
    generateCombos id manualExclusiveSets ["zzz"] fsTLB ≠ [] :=
  ⟨rfl, rfl, by decide⟩

/-- C4 (amended): a grouped exclusive entity emptied by the material
allow-list is dropped rather than enumerated; the product/angle pair is
skipped (contributing zero combinations, with no crash) exactly when no
combinable entity at all remains, and otherwise enumeration proceeds over
the remaining entities. -/
theorem c4_empty_filter_amended (s : List String → List String) (es : List (List String))
    (al : List String) (fs : List Feature) :
    generateCombos s es al fs = [] ↔ groupEntities s es al fs = [] := by
  unfold generateCombos enumerateEntities
  split
  next h => simp [List.isEmpty_iff.mp h]
  next h =>
    have hne : groupEntities s es al fs ≠ [] := by
      intro hnil
      exact h (by rw [hnil]; rfl)
    constructor
    · intro hnil
      exfalso
      have hlen : (listProd (groupEntities s es al fs)).length = 0 := by rw [hnil]; rfl
      rw [listProd_length] at hlen
      have hpos : 0 < ((groupEntities s es al fs).map List.length).prod := by
        apply List.prod_pos
        intro x hx
        rcases List.mem_map.mp hx with ⟨y, hy, rfl⟩
        exact List.length_pos.mpr (groupEntities_ne_nil s es al fs y hy)
      omega
    · intro hnil
      exact absurd hnil hne

/-- C5: for a product with present features `{A, B, C}` and declared
exclusive set `{A, B}` with no material allow-list, grouping yields
exactly two combinable entities — a merged `{A, B}` entity of size
`|A.options| + |B.options|` followed by the standalone `C` entity — and
any exclusive set whose intersection with the present features has fewer
than two members does not apply, leaving every such feature standalone. -/
theorem c5_exclusivity_grouping :
    (∀ (s : List String → List String) (a b c : List Opt),
      (∀ l, (s l).Perm l) → a ≠ [] → b ≠ [] → c ≠ [] →
      ∃ g, groupEntities s [["A", "B"]] [] [⟨"A", a⟩, ⟨"B", b⟩, ⟨"C", c⟩] =
          [g, c.map (fun o => ("C", o))] ∧ g.length = a.length + b.length) ∧
    (∀ (s : List String → List String) (es : List (List String)) (al : List String)
      (fs : List Feature),
      (∀ e ∈ es, ((productCodes fs).filter (fun x => e.contains x)).length < 2) →
      groupEntities s es al fs = groupEntities s [] al fs) :=
  ⟨groupEntities_merge_pair, groupEntities_small_inter⟩

/-- C5 (witness): the grouping theorem instantiated on concrete option
lists of sizes 1, 2, 1 with the identity iteration order, and the
small-intersection part on a product disjoint from the declared exclusive
sets. -/
theorem c5_exclusivity_grouping_witness :
    (∃ g, groupEntities id [["A", "B"]]
        [] [⟨"A", [Opt.mk "a1"]⟩, ⟨"B", [Opt.mk "b1", Opt.mk "b2"]⟩, ⟨"C", [Opt.mk "c1"]⟩] =
        [g, [("C", Opt.mk "c1")]] ∧ g.length = 1 + 2) ∧
    groupEntities id manualExclusiveSets [] fsXY = groupEntities id [] [] fsXY :=
  ⟨c5_exclusivity_grouping.1 id [Opt.mk "a1"] [Opt.mk "b1", Opt.mk "b2"] [Opt.mk "c1"]
      (fun l => List.Perm.refl l) (by decide) (by decide) (by decide),
    c5_exclusivity_grouping.2 id manualExclusiveSets [] fsXY (by decide)⟩

/-- C6: the guarded per-frame enumeration yields exactly `m * n * k`
combinations for entities of sizes `[m, n, k]`, and yields no
combinations at all for an empty entity list (never a single empty
combination). -/
theorem c6_enumeration_cardinality :
    (∀ e1 e2 e3 : Entity, (enumerateEntities [e1, e2, e3]).length =
      e1.length * e2.length * e3.length) ∧
    enumerateEntities ([] : List Entity) = [] := by
  constructor
  · intro e1 e2 e3
    have h : enumerateEntities [e1, e2, e3] = listProd [e1, e2, e3] := rfl
    rw [h, listProd_length]
    simp [Nat.mul_assoc]
  · rfl

/-- C7: for a non-empty allow-list the material filter retains exactly
the options whose code is allowed, the filter is idempotent, and
standalone entities are independent of the allow-list (never filtered). -/
theorem c7_allowlist_scope_idempotent :
    (∀ (al : List String) (opts : List Opt) (o : Opt), al ≠ [] →
      (o ∈ filterAllow al opts ↔ o ∈ opts ∧ o.code ∈ al)) ∧
    (∀ (al : List String) (opts : List Opt),
      filterAllow al (filterAllow al opts) = filterAllow al opts) ∧
    (∀ (s : List String → List String) (es : List (List String)) (al : List String)
      (fs : List Feature), standalonePart s es al fs = standalonePart s es [] fs) :=
  ⟨filterAllow_mem, filterAllow_idem, standalonePart_allowList_indep⟩

/-- C7 (witness): the scope theorem instantiated on a concrete allow-list
and option list. -/
theorem c7_allowlist_scope_idempotent_witness :
    (["m1"] : List String) ≠ [] ∧
    (Opt.mk "m1" ∈ filterAllow ["m1"] [Opt.mk "m1", Opt.mk "m2"] ↔
      Opt.mk "m1" ∈ [Opt.mk "m1", Opt.mk "m2"] ∧ "m1" ∈ ["m1"]) :=
  ⟨by decide,
    c7_allowlist_scope_idempotent.1 ["m1"] [Opt.mk "m1", Opt.mk "m2"] (Opt.mk "m1") (by decide)⟩

/-- C8: whenever the resolved base-color or material-color string is
absent (missing or empty), the matcher returns false for every candidate
row — no reference-row condition can influence the outcome — and the
export row's item identifier is the empty string. -/
theorem c8_missing_color_short_circuit (base mat : Option String) (cand : RefRow)
    (h : truthyStr base = false ∨ truthyStr mat = false) :
    check_color_match base mat cand = false ∧ assignItemNo (some cand) base mat = "" := by
  have hcond : (!truthyStr base || !truthyStr mat) = true := by
    rcases h with h | h <;> simp [h]
  have hcm : check_color_match base mat cand = false := by
    unfold check_color_match
    rw [if_pos hcond]
  refine ⟨hcm, ?_⟩
  show (if check_color_match base mat cand = true then cand.itemNo else "") = ""
  rw [hcm]
  simp

/-- C8 (witness): the short-circuit theorem applied to an empty base
color against a concrete candidate row. -/
theorem c8_missing_color_short_circuit_witness :
    truthyStr (some "") = false ∧
    (check_color_match (some "") (some "m1") rowOak = false ∧
      assignItemNo (some rowOak) (some "") (some "m1") = "") :=
  ⟨rfl, c8_missing_color_short_circuit (some "") (some "m1") rowOak (Or.inl rfl)⟩

/-- C9: for every non-empty combination the generated URL equals the
claimed shape: base, product path with percent-encoded code, frame, the
fixed query triple `size`, `encoding`, `removeEnvironmentShadow`, the
optional `skipSharpening=true` exactly when the flag is set, then one
`feature=featureCode:optionCode` parameter per chosen option with the
colon kept unescaped and other reserved characters percent-encoded. -/
theorem c9_image_url_format (cid prod : String) (frame size : Nat) (skip : Bool)
    (combo : Entity) (h : combo ≠ []) :
    buildImageUrl cid prod frame size skip combo =
      specImageUrl ("https://content.cylindo.com/api/v2/" ++ cid) prod frame size skip combo := by
  have hmap : combo.map (fun p => "feature=" ++ pyQuote [':'] (p.1 ++ ":" ++ p.2.code)) ≠ [] := by
    simp [h]
  unfold specImageUrl
  have hconcat : concatAll (combo.map (fun p =>
      "&feature=" ++ pyQuote [':'] (p.1 ++ ":" ++ p.2.code))) =
      "&" ++ joinAmp (combo.map (fun p =>
        "feature=" ++ pyQuote [':'] (p.1 ++ ":" ++ p.2.code))) := by
    rw [amp_join _ hmap, List.map_map]
    have hfun : ((fun x => "&" ++ x) ∘ fun p : String × Opt =>
        "feature=" ++ pyQuote [':'] (p.1 ++ ":" ++ p.2.code)) =
        (fun p : String × Opt => "&feature=" ++ pyQuote [':'] (p.1 ++ ":" ++ p.2.code)) := by
      funext p
      show "&" ++ ("feature=" ++ pyQuote [':'] (p.1 ++ ":" ++ p.2.code)) =
        "&feature=" ++ pyQuote [':'] (p.1 ++ ":" ++ p.2.code)
      rw [← String.append_assoc]
      rfl
    rw [hfun]
  rw [hconcat]
  unfold buildImageUrl
  cases skip with
  | false =>
    simp only [joinAmp, List.map_cons, List.map_nil, List.append_nil, if_false,
      Bool.false_eq_true, List.cons_append, List.nil_append]
    simp only [String.append_assoc]
    rfl
  | true =>
    simp only [joinAmp, List.map_cons, List.map_nil, List.append_nil, if_true,
      List.cons_append, List.nil_append]
    simp only [String.append_assoc]
    rfl

/-- C9 (witness): the URL theorem applied to a concrete single-option
combination. -/
theorem c9_image_url_format_witness :
    ([("TEXTILE", Opt.mk "t1")] : Entity) ≠ [] ∧
    buildImageUrl "4928" "CH_01" 1 1500 true [("TEXTILE", Opt.mk "t1")] =
      specImageUrl ("https://content.cylindo.com/api/v2/" ++ "4928") "CH_01" 1 1500 true
        [("TEXTILE", Opt.mk "t1")] :=
  ⟨by decide, c9_image_url_format "4928" "CH_01" 1 1500 true [("TEXTILE", Opt.mk "t1")] (by decide)⟩

/-- C10: within one product the candidate reference row is fixed once by
the fuzzy name prefilter, so any two combinations of that product whose
resolved item identifiers are non-empty carry the same identifier — the
product's export rows contain at most one distinct non-empty item
number. -/
theorem c10_item_identifier_unique (score : String → String → Nat) (prodName : String)
    (df : List RefRow) (θ : Nat) (c1 c2 : Entity)
    (h1 : rowItemNo (productCandidate score prodName df θ) c1 ≠ "")
    (h2 : rowItemNo (productCandidate score prodName df θ) c2 ≠ "") :
    rowItemNo (productCandidate score prodName df θ) c1 =
      rowItemNo (productCandidate score prodName df θ) c2 := by
  cases hc : productCandidate score prodName df θ with
  | none =>
    rw [hc] at h1
    exact absurd rfl h1
  | some r =>
    rw [hc] at h1 h2
    have h1' : assignItemNo (some r) (comboGet c1 "BASE")
        (pyOrStr (comboGet c1 "TEXTILE") (comboGet c1 "LEATHER")) ≠ "" := h1
    have h2' : assignItemNo (some r) (comboGet c2 "BASE")
        (pyOrStr (comboGet c2 "TEXTILE") (comboGet c2 "LEATHER")) ≠ "" := h2
    show assignItemNo (some r) (comboGet c1 "BASE")
        (pyOrStr (comboGet c1 "TEXTILE") (comboGet c1 "LEATHER")) =
      assignItemNo (some r) (comboGet c2 "BASE")
        (pyOrStr (comboGet c2 "TEXTILE") (comboGet c2 "LEATHER"))
    rw [assign_ne r _ _ h1', assign_ne r _ _ h2']

/-- C10 (witness): the uniqueness theorem applied to a one-row reference
table and two concrete matching combinations, one via `TEXTILE` and one
via `LEATHER`. -/
theorem c10_item_identifier_unique_witness :
    rowItemNo (productCandidate scoreDemo "P" [rowOak] 85) comboBT ≠ "" ∧
    rowItemNo (productCandidate scoreDemo "P" [rowOak] 85) comboBL ≠ "" ∧
    rowItemNo (productCandidate scoreDemo "P" [rowOak] 85) comboBT =
      rowItemNo (productCandidate scoreDemo "P" [rowOak] 85) comboBL :=
  ⟨by decide, by decide,
    c10_item_identifier_unique scoreDemo "P" [rowOak] 85 comboBT comboBL
      (by decide) (by decide)⟩
